import Mathlib

/-!
Verification of the library management system backend
(`libraryManagementSystem.py`): a shallow embedding of the `Book`, `User`
and `BackendManager` classes, together with proofs and refutations of the
specified properties.

Modelling conventions:
* Python strings (names) are `List Char`; Python integers are `Int`.
* Book identifiers are modelled as `Int`: the code's
  `del self.borrowed_books[book.id - 1]` performs arithmetic on the id, so
  the id must be numeric for that statement to execute at all (with a
  non-numeric id the same line raises `TypeError` unconditionally).
* `User.borrowed_books` holds Python references to `Book` objects, but the
  only attribute the program ever reads from a stored entry is `.id`
  (in `User.return_copy` and `User.is_borrowed`), and ids are never
  mutated; the list is therefore embedded as the list of those ids.
* Python `del lst[i]` is `pyDel`: it supports negative indices and raises
  `IndexError` out of range; a raised exception is `Option.none` and, since
  nothing catches it, aborts the whole operation (no state survives).
-/

namespace LibrarySystem

/-- A Python string. -/
abbrev Str : Type := List Char

/-- The `Book` class: `name`, `id`, `total_quantity`, and the
`total_borrows` counter initialised to `0` by the constructor. -/
structure Book where
  name : Str
  id : Int
  total_quantity : Int
  total_borrows : Int
  deriving DecidableEq

/-- `Book.borrow`: fails when `total_quantity - total_borrows == 0`,
otherwise increments `total_borrows`. -/
def Book.borrow (b : Book) : Bool × Book :=
  if b.total_quantity - b.total_borrows = 0 then (false, b)
  else (true, { b with total_borrows := b.total_borrows + 1 })

/-- `Book.return_copy`: fails when `total_borrows == 0`, otherwise
decrements `total_borrows`. -/
def Book.return_copy (b : Book) : Bool × Book :=
  if b.total_borrows = 0 then (false, b)
  else (true, { b with total_borrows := b.total_borrows - 1 })

/-- The `User` class: `name`, `id`, and the `borrowed_books` list
(initialised empty by the constructor), embedded as the ids of the stored
book objects. -/
structure User where
  name : Str
  id : Int
  borrowed_books : List Int
  deriving DecidableEq

/-- `User.borrow`: unconditionally appends the book (its id) to
`borrowed_books`. -/
def User.borrow (u : User) (bid : Int) : User :=
  { u with borrowed_books := u.borrowed_books ++ [bid] }

/-- `User.is_borrowed`: scans `borrowed_books` comparing ids. -/
def User.is_borrowed (u : User) (bid : Int) : Bool :=
  u.borrowed_books.any (fun x => x == bid)

/-- Python `del lst[i]` for an `Int` index: indices in `[0, len)` delete at
`i`, indices in `[-len, 0)` delete at `len + i`, anything else raises
`IndexError` (= `none`). -/
def pyDel (l : List α) (i : Int) : Option (List α) :=
  if 0 ≤ i ∧ i < l.length then some (l.eraseIdx i.toNat)
  else if -(l.length : Int) ≤ i ∧ i < 0 then some (l.eraseIdx (i + l.length).toNat)
  else none

/-- `User.return_copy`: scans `borrowed_books` for the first entry whose id
matches, and on a match executes `del self.borrowed_books[book.id - 1]` —
the deletion index comes from the matched entry's id field (which equals
the argument's id), not from the position found by the scan. With no match
the loop falls through and nothing happens. -/
def User.return_copy (u : User) (bid : Int) : Option User :=
  if u.borrowed_books.any (fun x => x == bid) then
    (pyDel u.borrowed_books (bid - 1)).map
      (fun l => { u with borrowed_books := l })
  else some u

/-- The `BackendManager` class: the `books` and `users` lists. -/
structure BackendManager where
  books : List Book
  users : List User
  deriving DecidableEq

/-- `BackendManager.__init__`: both collections start empty. -/
def emptyManager : BackendManager := { books := [], users := [] }

/-- `BackendManager.add_book`: appends `Book(name, id, total_quantity)`. -/
def add_book (m : BackendManager) (name : Str) (id : Int)
    (total_quantity : Int) : BackendManager :=
  { m with books := m.books ++
      [{ name := name, id := id,
         total_quantity := total_quantity, total_borrows := 0 }] }

/-- `BackendManager.add_user`: appends `User(name, id)`. -/
def add_user (m : BackendManager) (name : Str) (id : Int) : BackendManager :=
  { m with users := m.users ++
      [{ name := name, id := id, borrowed_books := [] }] }

/-- `BackendManager.get_user_by_name`: first user whose name matches,
`None` if there is none. -/
def get_user_by_name (m : BackendManager) (user_name : Str) : Option User :=
  m.users.find? (fun u => u.name == user_name)

/-- `BackendManager.get_book_by_name`: first book whose name matches,
`None` if there is none. -/
def get_book_by_name (m : BackendManager) (book_name : Str) : Option Book :=
  m.books.find? (fun b => b.name == book_name)

/-- Replace the first element satisfying `p` by its `f`-image: the purely
functional rendering of Python's mutation of the object found by a
first-match scan. -/
def updateFirst (p : α → Bool) (f : α → α) : List α → List α
  | [] => []
  | x :: xs => if p x then f x :: xs else x :: updateFirst p f xs

/-- `BackendManager.borrow_book`: resolve both names (first match); fail if
either is missing; call `Book.borrow()`, and only on its success record the
borrow on the user side. The updated book and user are the objects the
scans found, i.e. the first matches. -/
def borrow_book (m : BackendManager) (user_name book_name : Str) :
    Bool × BackendManager :=
  match get_user_by_name m user_name, get_book_by_name m book_name with
  | some _user, some book =>
    match Book.borrow book with
    | (true, book') =>
      (true, { books := updateFirst (fun x => x.name == book_name)
                 (fun _ => book') m.books,
               users := updateFirst (fun x => x.name == user_name)
                 (fun x => x.borrow book'.id) m.users })
    | (false, _) => (false, m)
  | _, _ => (false, m)

/-- `BackendManager.return_book`: resolve both names; fail if either is
missing; fail if `user.is_borrowed(book)` is false; otherwise run
`user.return_copy(book)` (which may raise `IndexError`, aborting the whole
operation before the book is touched) and then `book.return_copy()`, whose
result is ignored. -/
def return_book (m : BackendManager) (user_name book_name : Str) :
    Option (Bool × BackendManager) :=
  match get_user_by_name m user_name, get_book_by_name m book_name with
  | some user, some book =>
    if user.is_borrowed book.id then
      match user.return_copy book.id with
      | some user' =>
        some (true, { books := updateFirst (fun x => x.name == book_name)
                        (fun _ => (Book.return_copy book).2) m.books,
                      users := updateFirst (fun x => x.name == user_name)
                        (fun _ => user') m.users })
      | none => none
    else some (false, m)
  | _, _ => some (false, m)

/-- `BackendManager.get_users_borrowed_book`: empty for an unknown book,
otherwise the names of the users holding the book's id, in the order of the
`users` list. -/
def get_users_borrowed_book (m : BackendManager) (book_name : Str) :
    List Str :=
  match get_book_by_name m book_name with
  | none => []
  | some book =>
    (m.users.filter (fun u => u.is_borrowed book.id)).map (fun u => u.name)

/-- `BackendManager.get_books_with_prefix`: the books whose name starts
with `pre`, in the order of the `books` list. -/
def get_books_with_pref (m : BackendManager) (pre : Str) : List Book :=
  m.books.filter (fun b => pre.isPrefixOf b.name)

/-- One invocation of the backend's public interface. -/
inductive Op where
  | addBook (name : Str) (id : Int) (total_quantity : Int)
  | addUser (name : Str) (id : Int)
  | borrowBook (user_name book_name : Str)
  | returnBook (user_name book_name : Str)
  | getUserByName (user_name : Str)
  | getBookByName (book_name : Str)
  | getUsersBorrowedBook (book_name : Str)
  | getBooksWithPref (pre : Str)

/-- What an operation hands back to the caller. -/
inductive Out where
  | unit
  | flag (b : Bool)
  | optUser (u : Option User)
  | optBook (b : Option Book)
  | names (l : List Str)
  | bookList (l : List Book)
  deriving DecidableEq

/-- Run one operation against the manager: the next state and the returned
value, or `none` when the operation raises an uncaught exception. -/
def applyOp : Op → BackendManager → Option (BackendManager × Out)
  | Op.addBook n i q, m => some (add_book m n i q, Out.unit)
  | Op.addUser n i, m => some (add_user m n i, Out.unit)
  | Op.borrowBook un bn, m =>
    some ((borrow_book m un bn).2, Out.flag (borrow_book m un bn).1)
  | Op.returnBook un bn, m =>
    (return_book m un bn).map (fun r => (r.2, Out.flag r.1))
  | Op.getUserByName s, m => some (m, Out.optUser (get_user_by_name m s))
  | Op.getBookByName s, m => some (m, Out.optBook (get_book_by_name m s))
  | Op.getUsersBorrowedBook s, m =>
    some (m, Out.names (get_users_borrowed_book m s))
  | Op.getBooksWithPref s, m =>
    some (m, Out.bookList (get_books_with_pref m s))

/-- Run a sequence of operations from a given state; a raised exception
aborts the run. -/
def runFrom (m : BackendManager) : List Op → Option BackendManager
  | [] => some m
  | op :: ops => (applyOp op m).bind (fun r => runFrom r.1 ops)

/-- Run a sequence of operations from the empty manager. -/
def runOps (ops : List Op) : Option BackendManager :=
  runFrom emptyManager ops

/-- Total borrow records held for a given book id across all users: the
size of the "who borrowed this book" multiset of the specification. -/
def recordCount (m : BackendManager) (bid : Int) : Nat :=
  (m.users.map (fun u => u.borrowed_books.count bid)).sum

/-- Run one borrow of `bn` per user name in the list, requiring every
`borrow_book` call to return `True`. -/
def borrowSeq (bn : Str) : BackendManager → List Str → Option BackendManager
  | m, [] => some m
  | m, un :: rest =>
    match borrow_book m un bn with
    | (true, m') => borrowSeq bn m' rest
    | (false, _) => none

/-! ### Structural lemmas about the first-match update -/

/-- `updateFirst` splits the list at the element `find?` locates. -/
theorem updateFirst_decomp {α : Type} {p : α → Bool} {f : α → α}
    {l : List α} {y : α} (h : l.find? p = some y) :
    ∃ l₁ l₂, l = l₁ ++ y :: l₂ ∧ (∀ z ∈ l₁, p z = false) ∧
      updateFirst p f l = l₁ ++ f y :: l₂ := by
  induction l with
  | nil => simp [List.find?] at h
  | cons x xs ih =>
    cases hx : p x with
    | true =>
      rw [List.find?_cons_of_pos xs hx] at h
      obtain rfl : x = y := by injection h
      exact ⟨[], xs, rfl, by simp, by simp [updateFirst, hx]⟩
    | false =>
      rw [List.find?_cons_of_neg xs (by simp [hx])] at h
      obtain ⟨l₁, l₂, hsplit, hl₁, hup⟩ := ih h
      refine ⟨x :: l₁, l₂, by rw [hsplit]; rfl, ?_, ?_⟩
      · intro z hz
        rcases List.mem_cons.mp hz with rfl | hz
        · exact hx
        · exact hl₁ z hz
      · simp [updateFirst, hx, hup]

/-- Every element of `updateFirst p f l` is an old element or the
`f`-image of a matching old element. -/
theorem mem_updateFirst {α : Type} {p : α → Bool} {f : α → α}
    {l : List α} {x : α} (hx : x ∈ updateFirst p f l) :
    x ∈ l ∨ ∃ y, y ∈ l ∧ p y = true ∧ x = f y := by
  induction l with
  | nil => simp [updateFirst] at hx
  | cons a as ih =>
    cases ha : p a with
    | true =>
      simp only [updateFirst, ha, if_pos] at hx
      rcases List.mem_cons.mp hx with rfl | hx
      · exact Or.inr ⟨a, List.mem_cons_self a as, ha, rfl⟩
      · exact Or.inl (List.mem_cons_of_mem a hx)
    | false =>
      simp only [updateFirst, ha, Bool.false_eq_true, if_neg,
        not_false_eq_true] at hx
      rcases List.mem_cons.mp hx with rfl | hx
      · exact Or.inl (List.mem_cons_self x as)
      · rcases ih hx with h | ⟨y, hy, hpy, hxy⟩
        · exact Or.inl (List.mem_cons_of_mem a h)
        · exact Or.inr ⟨y, List.mem_cons_of_mem a hy, hpy, hxy⟩

/-- `find?` over a split list whose left part has no match. -/
theorem find?_append_first {α : Type} {p : α → Bool} {l₁ l₂ : List α}
    {y : α} (hl₁ : ∀ z ∈ l₁, p z = false) (hy : p y = true) :
    (l₁ ++ y :: l₂).find? p = some y := by
  induction l₁ with
  | nil => exact List.find?_cons_of_pos l₂ hy
  | cons a as ih =>
    rw [List.cons_append,
      List.find?_cons_of_neg _ (by simp [hl₁ a (List.mem_cons_self a as)])]
    exact ih (fun z hz => hl₁ z (List.mem_cons_of_mem a hz))

/-- After updating the first match, the first match is its `f`-image,
provided `f` keeps the match. -/
theorem find?_updateFirst {α : Type} {p : α → Bool} {f : α → α}
    {l : List α} {y : α} (h : l.find? p = some y) (hf : p (f y) = true) :
    (updateFirst p f l).find? p = some (f y) := by
  obtain ⟨l₁, l₂, _, hl₁, hup⟩ := updateFirst_decomp (f := f) h
  rw [hup]
  exact find?_append_first hl₁ hf

/-! ### Generic list lemmas used by the filter-shaped queries -/

/-- Boolean list containment of the code versus the mathematical existence
of a tail: `p.isPrefixOf s` is "s starts with p". -/
theorem isPrefixOf_iff_append {p s : Str} :
    p.isPrefixOf s = true ↔ ∃ t, s = p ++ t := by
  induction p generalizing s with
  | nil => simp
  | cons a as ih =>
    cases s with
    | nil => simp [List.isPrefixOf]
    | cons b bs =>
      simp only [List.isPrefixOf, Bool.and_eq_true, beq_iff_eq, ih,
        List.cons_append, List.cons.injEq]
      constructor
      · rintro ⟨rfl, t, rfl⟩
        exact ⟨t, rfl, rfl⟩
      · rintro ⟨t, rfl, rfl⟩
        exact ⟨rfl, t, rfl⟩

/-- Two lists that agree under a paired map (key and flag per element)
filter and project to the same keys. -/
theorem filter_map_of_pair {α β γ : Type} {l : List α} {l' : List β}
    {g : α → γ} {g' : β → γ} {q : α → Bool} {r : β → Bool}
    (h : l.map (fun x => (g x, q x)) = l'.map (fun y => (g' y, r y))) :
    (l.filter q).map g = (l'.filter r).map g' := by
  induction l generalizing l' with
  | nil =>
    cases l' with
    | nil => rfl
    | cons b bs => simp at h
  | cons a as ih =>
    cases l' with
    | nil => simp at h
    | cons b bs =>
      simp only [List.map_cons, List.cons.injEq, Prod.mk.injEq] at h
      obtain ⟨⟨hg, hq⟩, htail⟩ := h
      cases hqa : q a with
      | true =>
        have hrb : r b = true := by rw [← hq]; exact hqa
        rw [List.filter_cons_of_pos hqa, List.filter_cons_of_pos hrb]
        simp only [List.map_cons, hg]
        rw [ih htail]
      | false =>
        have hrb : r b = false := by rw [← hq]; exact hqa
        rw [List.filter_cons_of_neg (by simp [hqa]),
          List.filter_cons_of_neg (by simp [hrb])]
        exact ih htail

/-- Filtering on a projected key commutes with mapping the projection. -/
theorem filter_comp_map {α β : Type} (l : List α) (f : α → β)
    (q : β → Bool) :
    (l.filter (fun x => q (f x))).map f = (l.map f).filter q := by
  induction l with
  | nil => rfl
  | cons a as ih => by_cases h : q (f a) <;> simp [h, ih]

/-! ### Characterisations of the two mutating operations -/

/-- A failed `borrow_book` leaves the manager untouched. -/
theorem borrow_book_eq_false {m m' : BackendManager} {un bn : Str}
    (h : borrow_book m un bn = (false, m')) : m' = m := by
  unfold borrow_book at h
  split at h
  · split at h
    · simp at h
    · injection h with _ h2; exact h2.symm
  · injection h with _ h2; exact h2.symm

/-- A successful `borrow_book` resolved a user and a book with a free
copy, bumped that book's counter and appended its id to that user's
borrowed list (both at their first name matches). -/
theorem borrow_book_eq_true {m m' : BackendManager} {un bn : Str}
    (h : borrow_book m un bn = (true, m')) :
    ∃ user book, get_user_by_name m un = some user ∧
      get_book_by_name m bn = some book ∧
      ¬ book.total_quantity - book.total_borrows = 0 ∧
      m' = { books := updateFirst (fun x => x.name == bn)
               (fun _ => { book with total_borrows := book.total_borrows + 1 })
               m.books,
             users := updateFirst (fun x => x.name == un)
               (fun x => x.borrow book.id) m.users } := by
  unfold borrow_book at h
  split at h
  · split at h
    · rename_i user book hu hb pr book' hbb
      injection h with _ h2
      unfold Book.borrow at hbb
      by_cases hav : book.total_quantity - book.total_borrows = 0
      · rw [if_pos hav] at hbb
        exact absurd hbb (by simp)
      · rw [if_neg hav] at hbb
        injection hbb with _ hbk
        subst hbk
        exact ⟨user, book, hu, hb, hav, h2.symm⟩
    · simp at h
  · simp at h

/-- A `return_book` returning `False` leaves the manager untouched. -/
theorem return_book_eq_false {m m' : BackendManager} {un bn : Str}
    (h : return_book m un bn = some (false, m')) : m' = m := by
  unfold return_book at h
  split at h
  · split at h
    · split at h
      · simp at h
      · exact Option.noConfusion h
    · injection h with h1; injection h1 with _ h2; exact h2.symm
  · injection h with h1; injection h1 with _ h2; exact h2.symm

/-- A successful `return_book` went through the borrow check, deleted an
entry from the user's list (`User.return_copy` did not raise) and ran the
book-side decrement, both at the first name matches. -/
theorem return_book_eq_true {m m' : BackendManager} {un bn : Str}
    (h : return_book m un bn = some (true, m')) :
    ∃ user book user', get_user_by_name m un = some user ∧
      get_book_by_name m bn = some book ∧
      user.is_borrowed book.id = true ∧
      user.return_copy book.id = some user' ∧
      m' = { books := updateFirst (fun x => x.name == bn)
               (fun _ => (Book.return_copy book).2) m.books,
             users := updateFirst (fun x => x.name == un)
               (fun _ => user') m.users } := by
  unfold return_book at h
  split at h
  · split at h
    · split at h
      · rename_i user book hu hb hib pr user' hrc
        injection h with h1
        injection h1 with _ h2
        exact ⟨user, book, user', hu, hb, hib, hrc, h2.symm⟩
      · exact Option.noConfusion h
    · simp at h
  · simp at h

/-- When both names resolve and a copy is free, `borrow_book` succeeds,
bumping the first matching book and appending to the first matching
user. -/
theorem borrow_book_found {m : BackendManager} {un bn : Str} {user : User}
    {book : Book}
    (hu : get_user_by_name m un = some user)
    (hb : get_book_by_name m bn = some book)
    (hav : ¬ book.total_quantity - book.total_borrows = 0) :
    borrow_book m un bn =
      (true, { books := updateFirst (fun x => x.name == bn)
                 (fun _ => { book with
                   total_borrows := book.total_borrows + 1 }) m.books,
               users := updateFirst (fun x => x.name == un)
                 (fun x => x.borrow book.id) m.users }) := by
  unfold borrow_book
  split
  · rename_i user2 book2 hu2 hb2
    rw [hu] at hu2
    injection hu2 with hu3
    subst hu3
    rw [hb] at hb2
    injection hb2 with hb3
    subst hb3
    split
    · rename_i pr book' hbb
      unfold Book.borrow at hbb
      rw [if_neg hav] at hbb
      injection hbb with _ hbk
      subst hbk
      rfl
    · rename_i pr snd hbb
      unfold Book.borrow at hbb
      rw [if_neg hav] at hbb
      simp at hbb
  · rename_i hmis
    exact (hmis user book hu hb).elim

/-! ### Claims C4, C7: failing operations leave the state unchanged -/

/-- Claim C4: when both names resolve and the book's borrowed counter
equals its total quantity, `borrow_book` returns `False` and the manager
(both that book's state and that user's borrowed list) is unchanged. -/
theorem C4_borrow_full_fails_unchanged (m : BackendManager) (un bn : Str)
    (user : User) (book : Book)
    (_hu : get_user_by_name m un = some user)
    (hb : get_book_by_name m bn = some book)
    (hfull : book.total_borrows = book.total_quantity) :
    borrow_book m un bn = (false, m) := by
  cases hres : borrow_book m un bn with
  | mk flag m₂ =>
    cases flag
    · rw [borrow_book_eq_false hres]
    · exfalso
      obtain ⟨u2, b2, hu2, hb2, hav, hm⟩ := borrow_book_eq_true hres
      rw [hb] at hb2
      injection hb2 with hb3
      subst hb3
      omega

/-- Witness for C4 at a concrete input: one book with zero copies. -/
theorem C4_borrow_full_fails_unchanged_witness :
    get_user_by_name ⟨[⟨['a'], 1, 0, 0⟩], [⟨['u'], 9, []⟩]⟩ ['u'] =
      some ⟨['u'], 9, []⟩ ∧
    get_book_by_name ⟨[⟨['a'], 1, 0, 0⟩], [⟨['u'], 9, []⟩]⟩ ['a'] =
      some ⟨['a'], 1, 0, 0⟩ ∧
    borrow_book ⟨[⟨['a'], 1, 0, 0⟩], [⟨['u'], 9, []⟩]⟩ ['u'] ['a'] =
      (false, ⟨[⟨['a'], 1, 0, 0⟩], [⟨['u'], 9, []⟩]⟩) :=
  ⟨by decide, by decide,
    C4_borrow_full_fails_unchanged ⟨[⟨['a'], 1, 0, 0⟩], [⟨['u'], 9, []⟩]⟩
      ['u'] ['a'] ⟨['u'], 9, []⟩ ⟨['a'], 1, 0, 0⟩ (by decide) (by decide)
      rfl⟩

/-- Claim C7: when both names resolve but the user holds no record of the
book's id, `return_book` returns `False` and the manager is unchanged. -/
theorem C7_return_not_borrowed_fails_unchanged (m : BackendManager)
    (un bn : Str) (user : User) (book : Book)
    (hu : get_user_by_name m un = some user)
    (hb : get_book_by_name m bn = some book)
    (hnb : user.is_borrowed book.id = false) :
    return_book m un bn = some (false, m) := by
  unfold return_book
  rw [hu, hb]
  simp [hnb]

/-- Witness for C7 at a concrete input: a user with an empty borrowed
list. -/
theorem C7_return_not_borrowed_fails_unchanged_witness :
    get_user_by_name ⟨[⟨['a'], 1, 1, 0⟩], [⟨['u'], 9, []⟩]⟩ ['u'] =
      some ⟨['u'], 9, []⟩ ∧
    get_book_by_name ⟨[⟨['a'], 1, 1, 0⟩], [⟨['u'], 9, []⟩]⟩ ['a'] =
      some ⟨['a'], 1, 1, 0⟩ ∧
    return_book ⟨[⟨['a'], 1, 1, 0⟩], [⟨['u'], 9, []⟩]⟩ ['u'] ['a'] =
      some (false, ⟨[⟨['a'], 1, 1, 0⟩], [⟨['u'], 9, []⟩]⟩) :=
  ⟨by decide, by decide,
    C7_return_not_borrowed_fails_unchanged
      ⟨[⟨['a'], 1, 1, 0⟩], [⟨['u'], 9, []⟩]⟩ ['u'] ['a'] ⟨['u'], 9, []⟩
      ⟨['a'], 1, 1, 0⟩ (by decide) (by decide) (by decide)⟩

/-! ### Claims C8, C9, C10: queries and the add-operations -/

/-- Claim C8: the name-filter query returns exactly the books whose name
starts with the given string, as a subsequence of the catalog (hence in
insertion order), and the empty string returns the whole catalog. -/
theorem C8_books_with_pref_spec (m : BackendManager) (pre : Str) :
    (get_books_with_pref m pre).Sublist m.books ∧
    (∀ b : Book, b ∈ get_books_with_pref m pre ↔
      b ∈ m.books ∧ ∃ t, b.name = pre ++ t) ∧
    get_books_with_pref m [] = m.books := by
  refine ⟨List.filter_sublist m.books, fun b => ?_, ?_⟩
  · simp only [get_books_with_pref, List.mem_filter, isPrefixOf_iff_append]
  · exact List.filter_eq_self.mpr (fun b _ => by simp [List.isPrefixOf])

/-- Claim C9: the four query operations return their value and leave the
manager state exactly as it was. -/
theorem C9_queries_pure (m : BackendManager) (s : Str) :
    applyOp (Op.getUserByName s) m =
      some (m, Out.optUser (get_user_by_name m s)) ∧
    applyOp (Op.getBookByName s) m =
      some (m, Out.optBook (get_book_by_name m s)) ∧
    applyOp (Op.getUsersBorrowedBook s) m =
      some (m, Out.names (get_users_borrowed_book m s)) ∧
    applyOp (Op.getBooksWithPref s) m =
      some (m, Out.bookList (get_books_with_pref m s)) :=
  ⟨rfl, rfl, rfl, rfl⟩

/-- Claim C10: `add_book` and `add_user` unconditionally append a fresh
entity (counter `0`, empty borrowed list) and touch nothing else — in
particular no duplicate check on names or ids is performed. -/
theorem C10_add_append (m : BackendManager) (n : Str) (i q : Int) :
    add_book m n i q =
      { books := m.books ++
          [{ name := n, id := i, total_quantity := q, total_borrows := 0 }],
        users := m.users } ∧
    add_user m n i =
      { books := m.books,
        users := m.users ++
          [{ name := n, id := i, borrowed_books := [] }] } :=
  ⟨rfl, rfl⟩

/-! ### The positional-delete defect: concrete runs for C2, C3, C5, C6 -/

/-- Setup for the defect scenario: two one-copy books `a` (id 1) and `b`
(id 2) and one user `u`, who has borrowed `b`. -/
def defectOps : List Op :=
  [Op.addBook ['a'] 1 1, Op.addBook ['b'] 2 1, Op.addUser ['u'] 7,
   Op.borrowBook ['u'] ['b']]

/-- The state after `defectOps`. -/
def defectM1 : BackendManager :=
  { books := [⟨['a'], 1, 1, 0⟩, ⟨['b'], 2, 1, 1⟩],
    users := [⟨['u'], 7, [2]⟩] }

/-- `defectM1` after `u` also borrows `a`. -/
def defectM2 : BackendManager :=
  { books := [⟨['a'], 1, 1, 1⟩, ⟨['b'], 2, 1, 1⟩],
    users := [⟨['u'], 7, [2, 1]⟩] }

/-- `defectM2` after `u` returns `a`: the positional delete
`del borrowed_books[book.id - 1]` removes index `0` — the record of `b` —
so the user ends up holding a record of `a` while book `a`'s counter is
back to `0`. -/
def defectM3 : BackendManager :=
  { books := [⟨['a'], 1, 1, 0⟩, ⟨['b'], 2, 1, 1⟩],
    users := [⟨['u'], 7, [1]⟩] }

/-- Claim C2 fails on the code: from the reachable state `defectM1`, a
successful borrow of `a` followed by a successful return of `a` does not
restore the user's borrowed collection (it held `b`'s record before, `a`'s
record after), because `User.return_copy` deletes by the positional index
`book.id - 1` instead of the matched position. -/
theorem C2_round_trip_violated :
    runOps defectOps = some defectM1 ∧
    borrow_book defectM1 ['u'] ['a'] = (true, defectM2) ∧
    return_book defectM2 ['u'] ['a'] = some (true, defectM3) ∧
    defectM3.users ≠ defectM1.users := by
  refine ⟨by decide, by decide, by decide, by decide⟩

/-- Claim C3 fails on the code: in the reachable state `defectM3` the
users hold one borrow record with book `a`'s id (1) while book `a`'s
borrowed counter is `0` — the records exceed the counter. -/
theorem C3_records_exceed_counter :
    runOps (defectOps ++ [Op.borrowBook ['u'] ['a'],
      Op.returnBook ['u'] ['a']]) = some defectM3 ∧
    get_book_by_name defectM3 ['a'] = some ⟨['a'], 1, 1, 0⟩ ∧
    recordCount defectM3 1 = 1 ∧
    ¬ ((recordCount defectM3 1 : Int) ≤
        (⟨['a'], 1, 1, 0⟩ : Book).total_borrows) := by
  refine ⟨by decide, by decide, by decide, by decide⟩

/-- Borrowing the same book twice: the duplicate-records run for C5. -/
def dupOps : List Op :=
  [Op.addBook ['b'] 3 2, Op.addUser ['u'] 1, Op.borrowBook ['u'] ['b'],
   Op.borrowBook ['u'] ['b']]

/-- The state after `dupOps`: user `u` holds two records of book id 3. -/
def dupM : BackendManager :=
  { books := [⟨['b'], 3, 2, 2⟩], users := [⟨['u'], 1, [3, 3]⟩] }

/-- Claim C5 fails on the code: the reachable state `dupM` has a user
whose borrowed collection contains the same book id twice — no per-user
uniqueness is enforced anywhere. -/
theorem C5_duplicate_records_reachable :
    runOps dupOps = some dupM ∧
    dupM.users.map (fun u => u.borrowed_books) = [[3, 3]] ∧
    ¬ ([3, 3] : List Int).Nodup := by
  refine ⟨by decide, by decide, by decide⟩

/-- Claim C5, amended: membership is by book identifier but uniqueness is
not enforced — `borrow_book` appends unconditionally, so a user borrowing
a book they already hold ends up with (at least) two records of it. -/
theorem C5_no_uniqueness_amended (m : BackendManager) (un bn : Str)
    (user : User) (book : Book)
    (hu : get_user_by_name m un = some user)
    (hb : get_book_by_name m bn = some book)
    (hav : ¬ book.total_quantity - book.total_borrows = 0)
    (hdup : book.id ∈ user.borrowed_books) :
    get_user_by_name (borrow_book m un bn).2 un =
      some (user.borrow book.id) ∧
    2 ≤ (user.borrow book.id).borrowed_books.count book.id := by
  constructor
  · rw [borrow_book_found hu hb hav]
    show (updateFirst (fun x => x.name == un)
      (fun x => x.borrow book.id) m.users).find? (fun u => u.name == un) =
        some (user.borrow book.id)
    have hu' : m.users.find? (fun u => u.name == un) = some user := hu
    refine find?_updateFirst hu' ?_
    have hname := List.find?_some hu'
    exact hname
  · show 2 ≤ (user.borrowed_books ++ [book.id]).count book.id
    rw [List.count_append]
    have h1 : 0 < user.borrowed_books.count book.id :=
      List.count_pos_iff.mpr hdup
    have h2 : ([book.id] : List Int).count book.id = 1 := by simp
    omega

/-- Witness for the amended C5: user `u` already holds book id 3 and
borrows book `b` (id 3) again. -/
theorem C5_no_uniqueness_amended_witness :
    get_user_by_name ⟨[⟨['b'], 3, 2, 1⟩], [⟨['u'], 1, [3]⟩]⟩ ['u'] =
      some ⟨['u'], 1, [3]⟩ ∧
    get_book_by_name ⟨[⟨['b'], 3, 2, 1⟩], [⟨['u'], 1, [3]⟩]⟩ ['b'] =
      some ⟨['b'], 3, 2, 1⟩ ∧
    get_user_by_name
        (borrow_book ⟨[⟨['b'], 3, 2, 1⟩], [⟨['u'], 1, [3]⟩]⟩ ['u'] ['b']).2
        ['u'] = some ((⟨['u'], 1, [3]⟩ : User).borrow 3) ∧
    2 ≤ ((⟨['u'], 1, [3]⟩ : User).borrow 3).borrowed_books.count 3 :=
  ⟨by decide, by decide,
    (C5_no_uniqueness_amended ⟨[⟨['b'], 3, 2, 1⟩], [⟨['u'], 1, [3]⟩]⟩
      ['u'] ['b'] ⟨['u'], 1, [3]⟩ ⟨['b'], 3, 2, 1⟩ (by decide) (by decide)
      (by decide) (by decide)).1,
    (C5_no_uniqueness_amended ⟨[⟨['b'], 3, 2, 1⟩], [⟨['u'], 1, [3]⟩]⟩
      ['u'] ['b'] ⟨['u'], 1, [3]⟩ ⟨['b'], 3, 2, 1⟩ (by decide) (by decide)
      (by decide) (by decide)).2⟩

/-! ### Claim C1: the borrowed counter stays within bounds -/

/-- The counter invariant: every book with a non-negative quantity has
`0 <= total_borrows <= total_quantity`. -/
def InvBounds (m : BackendManager) : Prop :=
  ∀ b ∈ m.books, 0 ≤ b.total_quantity →
    0 ≤ b.total_borrows ∧ b.total_borrows ≤ b.total_quantity

/-- The manager ignores `Book.return_copy`'s flag; its state component is
a guarded decrement. -/
theorem return_copy_snd (b : Book) :
    (Book.return_copy b).2 =
      if b.total_borrows = 0 then b
      else { b with total_borrows := b.total_borrows - 1 } := by
  unfold Book.return_copy
  by_cases hz : b.total_borrows = 0
  · rw [if_pos hz, if_pos hz]
  · rw [if_neg hz, if_neg hz]

/-- One step of any operation preserves the counter invariant. -/
theorem invBounds_applyOp {op : Op} {m : BackendManager}
    {r : BackendManager × Out} (hm : InvBounds m)
    (h : applyOp op m = some r) : InvBounds r.1 := by
  cases op with
  | addBook n i q =>
    injection h with h1
    rw [← h1]
    intro b hb hq
    rcases List.mem_append.mp hb with hb | hb
    · exact hm b hb hq
    · rcases List.mem_singleton.mp hb with rfl
      constructor <;> simp_all
  | addUser n i =>
    injection h with h1
    rw [← h1]
    exact hm
  | borrowBook un bn =>
    injection h with h1
    rw [← h1]
    show InvBounds (borrow_book m un bn).2
    cases hres : borrow_book m un bn with
    | mk flag m₂ =>
      cases flag
      · rw [borrow_book_eq_false hres]
        exact hm
      · obtain ⟨user, book, hu, hb, hav, hm2⟩ := borrow_book_eq_true hres
        rw [hm2]
        intro b hb2 hq
        rcases mem_updateFirst hb2 with hb2 | ⟨y, hy, _, rfl⟩
        · exact hm b hb2 hq
        · have hbmem : book ∈ m.books := List.mem_of_find?_eq_some hb
          have := hm book hbmem
          simp only at hq ⊢
          constructor <;> omega
  | returnBook un bn =>
    simp only [applyOp] at h
    cases hret : return_book m un bn with
    | none => rw [hret] at h; exact Option.noConfusion h
    | some pr =>
      rw [hret] at h
      injection h with h1
      rw [← h1]
      show InvBounds pr.2
      cases pr with
      | mk flag m₂ =>
        cases flag
        · rw [return_book_eq_false hret]
          exact hm
        · obtain ⟨user, book, user', hu, hb, hib, hrc, hm2⟩ :=
            return_book_eq_true hret
          rw [hm2]
          intro b hb2 hq
          rcases mem_updateFirst hb2 with hb2 | ⟨y, hy, _, rfl⟩
          · exact hm b hb2 hq
          · have hbmem : book ∈ m.books := List.mem_of_find?_eq_some hb
            have hbk := hm book hbmem
            by_cases hz : book.total_borrows = 0
            · rw [return_copy_snd, if_pos hz] at hq ⊢
              exact hbk hq
            · rw [return_copy_snd, if_neg hz] at hq ⊢
              simp only at hq ⊢
              constructor <;> omega
  | getUserByName s => injection h with h1; rw [← h1]; exact hm
  | getBookByName s => injection h with h1; rw [← h1]; exact hm
  | getUsersBorrowedBook s => injection h with h1; rw [← h1]; exact hm
  | getBooksWithPref s => injection h with h1; rw [← h1]; exact hm

/-- Running any operation sequence preserves the counter invariant. -/
theorem invBounds_runFrom {ops : List Op} {m m' : BackendManager}
    (hm : InvBounds m) (h : runFrom m ops = some m') : InvBounds m' := by
  induction ops generalizing m with
  | nil =>
    injection h with h1
    rw [← h1]
    exact hm
  | cons op rest ih =>
    unfold runFrom at h
    cases ho : applyOp op m with
    | none => rw [ho] at h; exact Option.noConfusion h
    | some r =>
      rw [ho] at h
      exact ih (invBounds_applyOp hm ho) h

/-- Claim C1: in every state reachable from the empty catalog, every book
with a non-negative total quantity satisfies
`0 <= total_borrows <= total_quantity`. -/
theorem C1_borrow_counter_bounds (ops : List Op) (m : BackendManager)
    (h : runOps ops = some m) :
    ∀ b ∈ m.books, 0 ≤ b.total_quantity →
      0 ≤ b.total_borrows ∧ b.total_borrows ≤ b.total_quantity :=
  invBounds_runFrom (fun b hb _ => absurd hb (by simp [emptyManager])) h

/-- Witness for C1 on a concrete run: add one book and borrow it. -/
theorem C1_borrow_counter_bounds_witness :
    runOps [Op.addBook ['a'] 1 2, Op.addUser ['u'] 4,
        Op.borrowBook ['u'] ['a']] =
      some ⟨[⟨['a'], 1, 2, 1⟩], [⟨['u'], 4, [1]⟩]⟩ ∧
    ∀ b ∈ (⟨[⟨['a'], 1, 2, 1⟩], [⟨['u'], 4, [1]⟩]⟩ : BackendManager).books,
      0 ≤ b.total_quantity →
        0 ≤ b.total_borrows ∧ b.total_borrows ≤ b.total_quantity :=
  ⟨by decide,
    C1_borrow_counter_bounds
      [Op.addBook ['a'] 1 2, Op.addUser ['u'] 4, Op.borrowBook ['u'] ['a']]
      ⟨[⟨['a'], 1, 2, 1⟩], [⟨['u'], 4, [1]⟩]⟩ (by decide)⟩

/-- Roster-order run for C6: `p` is added before `q`, `q` borrows first. -/
def orderOps : List Op :=
  [Op.addBook ['m'] 5 3, Op.addUser ['p'] 1, Op.addUser ['q'] 2,
   Op.borrowBook ['q'] ['m'], Op.borrowBook ['p'] ['m']]

/-- The state after `orderOps`. -/
def orderM : BackendManager :=
  { books := [⟨['m'], 5, 3, 2⟩],
    users := [⟨['p'], 1, [5]⟩, ⟨['q'], 2, [5]⟩] }

/-- Claim C6 fails as stated: after `q` borrows before `p`, the query
lists `p` first — names come back in roster (insertion) order, not in
borrow order `[q, p]`. -/
theorem C6_roster_order_not_borrow_order :
    runOps orderOps = some orderM ∧
    get_users_borrowed_book orderM ['m'] = [['p'], ['q']] ∧
    ([['p'], ['q']] : List Str) ≠ [['q'], ['p']] := by
  refine ⟨by decide, by decide, by decide⟩

/-- Boolean containment versus decidable membership. -/
theorem contains_eq_decide_mem {l : List Str} {a : Str} :
    l.contains a = decide (a ∈ l) := by
  by_cases h : a ∈ l <;> simp [h]

/-- Invariant carried along a borrow sequence: the book named `bn` keeps
resolving with id `book.id`, every user's holder flag for that id says
exactly "my name is pinned in `S`", and names never change. -/
theorem borrowSeq_inv {bn : Str} {book : Book} {m₀ : BackendManager}
    (hros : (m₀.users.map (fun u => u.name)).Nodup) :
    ∀ (uns : List Str) (S : List Str) (m mN : BackendManager),
      (∃ bk : Book, get_book_by_name m bn = some bk ∧ bk.id = book.id) →
      m.users.map (fun u => (u.name, u.is_borrowed book.id)) =
        m₀.users.map (fun u => (u.name, S.contains u.name)) →
      borrowSeq bn m uns = some mN →
      ((∃ bk : Book, get_book_by_name mN bn = some bk ∧ bk.id = book.id) ∧
       mN.users.map (fun u => (u.name, u.is_borrowed book.id)) =
         m₀.users.map (fun u => (u.name,
           (uns.reverse ++ S).contains u.name)) ∧
       ∀ n ∈ uns, n ∈ m₀.users.map (fun u => u.name)) := by
  intro uns
  induction uns with
  | nil =>
    intro S m mN hbk hpair hrun
    injection hrun with h1
    subst h1
    refine ⟨hbk, by simpa using hpair, by simp⟩
  | cons un rest ih =>
    intro S m mN hbk hpair hrun
    obtain ⟨bk, hbkeq, hbkid⟩ := hbk
    simp only [borrowSeq] at hrun
    split at hrun
    case h_2 => exact Option.noConfusion hrun
    case h_1 m₁ heq =>
      obtain ⟨user, bk₂, hu, hb₂, hav, hm₁⟩ := borrow_book_eq_true heq
      rw [hbkeq] at hb₂
      injection hb₂ with hb₃
      subst hb₃
      -- first-match decomposition of the user list
      have hu' : m.users.find? (fun u => u.name == un) = some user := hu
      obtain ⟨l₁, l₂, hsplit, hl₁, hupd⟩ :=
        updateFirst_decomp (f := fun x => x.borrow bk.id) hu'
      have hname : (user.name == un) = true := by
        have h0 := List.find?_some hu'
        exact h0
      have huneq : user.name = un := eq_of_beq hname
      -- the roster of m equals the roster of the start state
      have hnamesEq : m.users.map (fun u => u.name) =
          m₀.users.map (fun u => u.name) := by
        have hfst := congrArg (List.map Prod.fst) hpair
        simpa [List.map_map, Function.comp] using hfst
      have hrosm : (m.users.map (fun u => u.name)).Nodup := by
        rw [hnamesEq]; exact hros
      -- nobody after the matched user shares the name `un`
      have hl₂ : ∀ z ∈ l₂, z.name ≠ un := by
        intro z hz hzeq
        have hsub2 : List.Sublist ((user :: l₂).map (fun u => u.name))
            (m.users.map (fun u => u.name)) := by
          rw [hsplit]
          exact (List.sublist_append_right l₁ (user :: l₂)).map _
        have hnod : ((user :: l₂).map (fun u => u.name)).Nodup :=
          hrosm.sublist hsub2
        rw [List.map_cons, List.nodup_cons] at hnod
        exact hnod.1 (by
          rw [huneq, ← hzeq] at hname ⊢
          exact List.mem_map_of_mem (fun u => u.name) hz)
      -- the one-step pair-map update
      have hmid : (fun u : User =>
          (u.name, u.is_borrowed book.id)) (user.borrow bk.id) =
            (un, true) := by
        simp [User.borrow, User.is_borrowed, huneq, hbkid]
      have hstep : m₁.users.map
          (fun u => (u.name, u.is_borrowed book.id)) =
          m₀.users.map (fun u => (u.name, (un :: S).contains u.name)) := by
        have hA : m₀.users.map
            (fun u => (u.name, (un :: S).contains u.name)) =
            (m₀.users.map (fun u => (u.name, S.contains u.name))).map
              (fun pr => (pr.1, (pr.1 == un) || pr.2)) := by
          rw [List.map_map]
          refine List.map_congr_left (fun u _ => ?_)
          by_cases h : u.name = un <;>
            simp [Function.comp, List.contains_cons, h]
        have hB : (m.users.map
            (fun u => (u.name, u.is_borrowed book.id))).map
              (fun pr => (pr.1, (pr.1 == un) || pr.2)) =
            m₁.users.map (fun u => (u.name, u.is_borrowed book.id)) := by
          rw [hm₁]
          show (m.users.map _).map _ =
            (updateFirst (fun x => x.name == un)
              (fun x => x.borrow bk.id) m.users).map _
          rw [hupd, hsplit]
          simp only [List.map_append, List.map_map, List.map_cons]
          congr 1
          · refine List.map_congr_left (fun z hz => ?_)
            simp [Function.comp, hl₁ z hz]
          · congr 1
            · simp [Function.comp, huneq, hbkid, User.borrow,
                User.is_borrowed]
            · refine List.map_congr_left (fun z hz => ?_)
              have : (z.name == un) = false :=
                beq_eq_false_iff_ne.mpr (hl₂ z hz)
              simp [Function.comp, this]
        rw [hA, ← hpair, hB]
      -- the book still resolves with the same id
      have hbk₁ : ∃ bk1 : Book, get_book_by_name m₁ bn = some bk1 ∧
          bk1.id = book.id := by
        refine ⟨{ bk with total_borrows := bk.total_borrows + 1 }, ?_, hbkid⟩
        rw [hm₁]
        show (updateFirst (fun x => x.name == bn)
          (fun _ => { bk with total_borrows := bk.total_borrows + 1 })
          m.books).find? (fun b => b.name == bn) = _
        have hbkeq' : m.books.find? (fun b => b.name == bn) = some bk := hbkeq
        refine find?_updateFirst hbkeq' ?_
        have := List.find?_some hbkeq'
        exact this
      obtain ⟨hbkN, hpairN, hsubN⟩ := ih (un :: S) m₁ mN hbk₁ hstep hrun
      refine ⟨hbkN, ?_, ?_⟩
      · rw [List.reverse_cons, List.append_assoc, List.singleton_append]
        exact hpairN
      · intro n hn
        rcases List.mem_cons.mp hn with rfl | hn
        · rw [← hnamesEq, ← huneq]
          exact List.mem_map_of_mem (fun u => u.name)
            (List.mem_of_find?_eq_some hu')
        · exact hsubN n hn

/-- Claim C6, amended: after all the users in `borrowers` (distinct names,
none of them holding the book beforehand) successfully borrow the book in
any order, the query returns exactly those borrower names, but ordered by
their position in the user roster (insertion order), not by borrow
order. -/
theorem C6_borrowers_roster_order (m₀ mN : BackendManager) (bn : Str)
    (book : Book) (borrowers : List Str)
    (hb : get_book_by_name m₀ bn = some book)
    (hros : (m₀.users.map (fun u => u.name)).Nodup)
    (hdis : borrowers.Nodup)
    (hclean : ∀ u ∈ m₀.users, u.is_borrowed book.id = false)
    (hrun : borrowSeq bn m₀ borrowers = some mN) :
    get_users_borrowed_book mN bn =
      (m₀.users.map (fun u => u.name)).filter
        (fun n => borrowers.contains n) ∧
    ((m₀.users.map (fun u => u.name)).filter
        (fun n => borrowers.contains n)).Perm borrowers := by
  obtain ⟨⟨bk, hbk, hbkid⟩, hpair, hsub⟩ :=
    borrowSeq_inv hros borrowers [] m₀ mN ⟨book, hb, rfl⟩
      (List.map_congr_left (fun u hu => by rw [hclean u hu]; rfl)) hrun
  simp only [List.append_nil] at hpair
  have hpair' : mN.users.map (fun u => (u.name, u.is_borrowed book.id)) =
      m₀.users.map (fun u => (u.name, borrowers.contains u.name)) := by
    rw [hpair]
    refine List.map_congr_left (fun u _ => ?_)
    have : borrowers.reverse.contains u.name =
        borrowers.contains u.name := by
      by_cases hmem : u.name ∈ borrowers <;> simp [hmem]
    rw [this]
  constructor
  · simp only [get_users_borrowed_book, hbk]
    rw [hbkid, filter_map_of_pair hpair']
    exact filter_comp_map m₀.users (fun u => u.name)
      (fun n => borrowers.contains n)
  · refine (List.perm_ext_iff_of_nodup (hros.filter _) hdis).mpr
      (fun a => ?_)
    constructor
    · intro ha
      obtain ⟨_, hac⟩ := List.mem_filter.mp ha
      rw [contains_eq_decide_mem] at hac
      exact of_decide_eq_true hac
    · intro ha
      exact List.mem_filter.mpr ⟨hsub a ha,
        by rw [contains_eq_decide_mem]; exact decide_eq_true ha⟩

/-- The start state for the C6 witness: book `m`, users `p` then `q`. -/
def c6m0 : BackendManager :=
  { books := [⟨['m'], 5, 3, 0⟩],
    users := [⟨['p'], 1, []⟩, ⟨['q'], 2, []⟩] }

/-- Witness for the amended C6: `q` borrows first, then `p`, and the
query lists `p` before `q` (roster order). -/
theorem C6_borrowers_roster_order_witness :
    get_book_by_name c6m0 ['m'] = some ⟨['m'], 5, 3, 0⟩ ∧
    (c6m0.users.map (fun u => u.name)).Nodup ∧
    ([['q'], ['p']] : List Str).Nodup ∧
    (∀ u ∈ c6m0.users,
      u.is_borrowed (⟨['m'], 5, 3, 0⟩ : Book).id = false) ∧
    borrowSeq ['m'] c6m0 [['q'], ['p']] = some orderM ∧
    (get_users_borrowed_book orderM ['m'] =
      (c6m0.users.map (fun u => u.name)).filter
        (fun n => ([['q'], ['p']] : List Str).contains n) ∧
    ((c6m0.users.map (fun u => u.name)).filter
        (fun n => ([['q'], ['p']] : List Str).contains n)).Perm
      [['q'], ['p']]) :=
  ⟨by decide, by decide, by decide, by decide, by decide,
    C6_borrowers_roster_order c6m0 orderM ['m'] ⟨['m'], 5, 3, 0⟩
      [['q'], ['p']] (by decide) (by decide) (by decide) (by decide)
      (by decide)⟩

end LibrarySystem
